import Mathlib

/-!
# Verification of the escrow fee / price-oracle core

Shallow embedding of the fee-computation, amount-conversion, retry and
price-fallback code of the escrow settlement engine, together with proofs
of the specification's testable properties.

JavaScript numbers are modelled as exact rationals wherever the source only
performs ordinary arithmetic, and through an explicit binary64
round-to-nearest-even model (`roundDouble`) wherever the source's behaviour
hinges on IEEE-754 rounding (`toSmallestUnit`).  JavaScript `BigInt` values
are modelled as `Int`.
-/

set_option autoImplicit false

/-! ## A binary64 rounding model

`roundDouble q` is the IEEE-754 double nearest to the real number `q`
(round-to-nearest, ties-to-even), expressed as the exact rational it denotes.
Overflow and subnormal ranges are not reachable at the magnitudes used by the
embedded code and are not modelled.
-/

/-- `shift2 q e = q * 2 ^ e` for an integer exponent, kept in `Nat`-power form. -/
def shift2 (q : ℚ) (e : ℤ) : ℚ :=
  if 0 ≤ e then q * 2 ^ e.toNat else q / 2 ^ (-e).toNat

/-- `⌊log₂ q⌋` for a positive rational, computed from the bit lengths of the
numerator and denominator and corrected by direct comparison. -/
def qlog2 (q : ℚ) : ℤ :=
  if shift2 1 ((q.num.natAbs.log2 : ℤ) - (q.den.log2 : ℤ) + 1) ≤ q then
    (q.num.natAbs.log2 : ℤ) - (q.den.log2 : ℤ) + 1
  else if shift2 1 ((q.num.natAbs.log2 : ℤ) - (q.den.log2 : ℤ)) ≤ q then
    (q.num.natAbs.log2 : ℤ) - (q.den.log2 : ℤ)
  else (q.num.natAbs.log2 : ℤ) - (q.den.log2 : ℤ) - 1

/-- Round a rational to the nearest integer, ties to even. -/
def roundHalfEven (x : ℚ) : ℤ :=
  if x - ⌊x⌋ < 1 / 2 then ⌊x⌋
  else if 1 / 2 < x - ⌊x⌋ then ⌊x⌋ + 1
  else if ⌊x⌋ % 2 = 0 then ⌊x⌋ else ⌊x⌋ + 1

/-- Round a positive rational to the nearest binary64 value: scale into
`[2^52, 2^53)`, round the significand to an integer (ties to even) and scale
back. -/
def roundPosDouble (q : ℚ) : ℚ :=
  shift2 ((roundHalfEven (shift2 q (-(qlog2 q - 52))) : ℤ) : ℚ) (qlog2 q - 52)

/-- The IEEE-754 binary64 value nearest to `q` (round-to-nearest-even),
as an exact rational. -/
def roundDouble (q : ℚ) : ℚ :=
  if q = 0 then 0
  else if q < 0 then - roundPosDouble (-q) else roundPosDouble q

/-! ## Amount Conversion Layer (`src/lib/utils/token-helpers.ts`)

`toSmallestUnit` operates on JavaScript floating-point numbers: the string
input goes through `parseFloat` (= `roundDouble` of the decimal value it
denotes, `none` for a non-numeric string, i.e. `NaN`), and every float
operation is rounded through `roundDouble`.  `Math.floor` of a double is
always exact and is modelled as `Int.floor`; so is the subtraction
`value - Math.floor(value)`, whose exact result is always representable.
-/

/-- The `BigInt` result of `toSmallestUnit` before its `.toString()`:
```js
const value = typeof amount === 'string' ? parseFloat(amount) : amount
if (isNaN(value) || value <= 0) return '0'
const factor = BigInt(10 ** decimals)
const wholePart = BigInt(Math.floor(value))
const decimalPart = value - Math.floor(value)
const decimalPartBigInt = BigInt(Math.floor(decimalPart * Number(factor)))
return (wholePart * factor + decimalPartBigInt).toString()
```
`amount = none` models an input parsing to `NaN`. -/
def toSmallestUnitInt (amount : Option ℚ) (decimals : ℕ) : ℤ :=
  match amount with
  | none => 0
  | some a =>
    let value := roundDouble a
    if value ≤ 0 then 0
    else
      let factor : ℤ := ⌊roundDouble ((10 : ℚ) ^ decimals)⌋
      let wholePart : ℤ := ⌊value⌋
      let decimalPart : ℚ := roundDouble (value - (⌊value⌋ : ℚ))
      let decimalPartBigInt : ℤ := ⌊roundDouble (decimalPart * roundDouble ((factor : ℤ) : ℚ))⌋
      wholePart * factor + decimalPartBigInt

/-- `toSmallestUnit` returns the smallest-unit amount as a decimal string. -/
def toSmallestUnit (amount : Option ℚ) (decimals : ℕ) : String :=
  toString (toSmallestUnitInt amount decimals)

/-- Left-pad a string with `'0'` up to length `n` (JS `String.padStart(n, '0')`). -/
def padStartZeros (s : String) (n : ℕ) : String :=
  String.mk (List.replicate (n - s.length) '0') ++ s

/-- Remove the trailing run of `'0'` characters (JS `replace(/0+$/, '')`). -/
def trimTrailingZeros (s : String) : String :=
  String.mk ((s.toList.reverse.dropWhile (· = '0')).reverse)

/-- `fromSmallestUnit` converts a smallest-unit integer back to a decimal
string:
```js
const bigIntAmount = BigInt(value)
const factor = BigInt(10 ** decimals)
const wholePart = bigIntAmount / factor
const remainder = bigIntAmount % factor
const decimalStr = remainder.toString().padStart(decimals, '0')
const trimmedDecimal = decimalStr.replace(/0+$/, '')
if (trimmedDecimal) return `${wholePart}.${trimmedDecimal}`
return wholePart.toString()
```
JS `BigInt` division truncates toward zero, hence `Int.tdiv` / `Int.tmod`.
The input is modelled after `BigInt(value)` has parsed it. -/
def fromSmallestUnit (amount : ℤ) (decimals : ℕ) : String :=
  let factor : ℤ := 10 ^ decimals
  let wholePart := amount.tdiv factor
  let remainder := amount.tmod factor
  let decimalStr := padStartZeros (toString remainder) decimals
  let trimmedDecimal := trimTrailingZeros decimalStr
  if trimmedDecimal = "" then toString wholePart
  else toString wholePart ++ "." ++ trimmedDecimal

/-! ## Chain-aware escrow amounts (`src/lib/utils/token-helpers.ts`) -/

/-- Models the `viem` dependency's `parseUnits(value, decimals)`: the decimal
value scaled by `10 ^ decimals`, rounding half-up when the value has more
fractional digits than `decimals` (Mathlib's `round` is `⌊x + 1/2⌋`, i.e.
half-up for the non-negative values used here). -/
def parseUnits (value : ℚ) (decimals : ℕ) : ℤ :=
  round (value * 10 ^ decimals)

/-- `isHederaChain`: Hedera Testnet (296) or Mainnet (295). -/
def isHederaChain (chainId : ℕ) : Bool :=
  chainId == 296 || chainId == 295

/-- Modelled from the spec: `getNativeCurrencyDecimals` lives in
`@/lib/blockchain`, which is not among the sources; per the chain
configuration the Hedera family uses 8 native decimals and every other
configured chain uses 18. -/
def getNativeCurrencyDecimals (chainId : ℕ) : ℕ :=
  if chainId = 295 ∨ chainId = 296 then 8 else 18

/-- `parseNativeAmount(amount, chainId)`: `parseUnits` at the chain's native
decimals. -/
def parseNativeAmount (amount : ℚ) (chainId : ℕ) : ℤ :=
  parseUnits amount (getNativeCurrencyDecimals chainId)

/-- The pair returned by `getEscrowAmounts`. -/
structure EscrowAmounts where
  contractAmount : ℤ
  transactionValue : ℤ
  deriving DecidableEq

/-- `getEscrowAmounts(amount, chainId)`: on the Hedera family the contract
argument is scaled at 8 decimals and the transaction value at 18; every other
chain uses its native decimals for both fields. -/
def getEscrowAmounts (amount : ℚ) (chainId : ℕ) : EscrowAmounts :=
  if isHederaChain chainId then
    { contractAmount := parseUnits amount 8, transactionValue := parseUnits amount 18 }
  else
    let nativeAmount := parseNativeAmount amount chainId
    { contractAmount := nativeAmount, transactionValue := nativeAmount }

/-! ## Fee Computation Service (`src/services/blockchain/escrow-core.service.ts`)

The on-chain call `contract.getUserFeePercentage(userAddress)` is the
external contract read; its result (the user's fee tier in basis points) is
passed in as a parameter.  The arithmetic in `calculateUserFee` is ordinary
JS number arithmetic on moderate decimal values and is modelled over `ℚ`;
`validateClientFee`'s division is modelled with explicit JS `NaN` /
`Infinity` semantics (`jsDiv`, `jsLe`) because its behaviour at a zero
authoritative fee hinges on them.
-/

/-- A JavaScript number: `NaN`, the infinities, or a finite value. -/
inductive JSNumber where
  | nan : JSNumber
  | posInf : JSNumber
  | negInf : JSNumber
  | fin : ℚ → JSNumber
  deriving DecidableEq

/-- JS division for finite operands: `x / 0` is `NaN` when `x = 0`, `±Infinity`
otherwise.  Non-finite operands do not occur in the embedded code (the
numerator is an absolute difference of finite values) and propagate `NaN`. -/
def jsDiv (a b : JSNumber) : JSNumber :=
  match a, b with
  | .fin x, .fin y =>
    if y = 0 then (if x = 0 then .nan else if 0 < x then .posInf else .negInf)
    else .fin (x / y)
  | _, _ => .nan

/-- JS `<=`: any comparison with `NaN` is false; `-Infinity` is below and
`Infinity` above every finite value. -/
def jsLe (a b : JSNumber) : Bool :=
  match a, b with
  | .nan, _ => false
  | _, .nan => false
  | .negInf, _ => true
  | _, .posInf => true
  | .posInf, _ => false
  | .fin _, .negInf => false
  | .fin x, .fin y => decide (x ≤ y)

/-- `getUserFeePercentage`: basis points from the contract divided by 100
(250 → 2.5). -/
def getUserFeePercentage (feeBasisPoints : ℕ) : ℚ :=
  (feeBasisPoints : ℚ) / 100

/-- Result of `calculateUserFee`. -/
structure FeeCalculationResult where
  feePercentage : ℚ
  feeAmount : ℚ
  netAmount : ℚ
  deriving DecidableEq

/-- `calculateUserFee(userAddress, amount)` with the contract's answer
(`feeBasisPoints`) passed in:
`feeAmount = amount * (feePercentage / 100)`, `netAmount = amount - feeAmount`. -/
def calculateUserFee (feeBasisPoints : ℕ) (amount : ℚ) : FeeCalculationResult :=
  let feePercentage := getUserFeePercentage feeBasisPoints
  let feeAmount := amount * (feePercentage / 100)
  let netAmount := amount - feeAmount
  { feePercentage := feePercentage, feeAmount := feeAmount, netAmount := netAmount }

/-- `validateClientFee(userAddress, amount, clientProvidedFee)`:
```js
const { feeAmount } = await this.calculateUserFee(userAddress, amount)
const tolerance = 0.0001
const difference = Math.abs(feeAmount - clientProvidedFee)
const percentDiff = difference / feeAmount
return percentDiff <= tolerance
```
The division has no zero guard: `percentDiff` is `NaN` or `Infinity` when
`feeAmount` is zero. -/
def validateClientFee (feeBasisPoints : ℕ) (amount : ℚ) (clientProvidedFee : ℚ) : Bool :=
  jsLe
    (jsDiv (.fin |(calculateUserFee feeBasisPoints amount).feeAmount - clientProvidedFee|)
      (.fin (calculateUserFee feeBasisPoints amount).feeAmount))
    (.fin (1 / 10000))

/-! ## Retry Executor (`src/lib/utils/api-retry.ts`) -/

/-- The fields of a thrown error object that the retry classifier inspects.
`responseStatus` models `error.response?.status`. -/
structure RetryableError where
  status : Option ℤ := none
  statusCode : Option ℤ := none
  responseStatus : Option ℤ := none
  message : Option String := none
  deriving DecidableEq

/-- JS truthiness of a status field: `0`, `null` and `undefined` are falsy. -/
def truthyStatus : Option ℤ → Option ℤ
  | some s => if s = 0 then none else some s
  | none => none

/-- `error.status || error.statusCode || error.response?.status`. -/
def statusOf (e : RetryableError) : Option ℤ :=
  match truthyStatus e.status with
  | some s => some s
  | none =>
    match truthyStatus e.statusCode with
    | some s => some s
    | none => truthyStatus e.responseStatus

/-- Naive substring search over character lists. -/
def charsContain (pat : List Char) : List Char → Bool
  | [] => decide (pat = [])
  | c :: rest => pat.isPrefixOf (c :: rest) || charsContain pat rest

/-- JS `String.includes`. -/
def strContains (s pat : String) : Bool :=
  charsContain pat.toList s.toList

/-- JS `String.toLowerCase`, character by character. -/
def toLowerStr (s : String) : String :=
  String.mk (s.toList.map Char.toLower)

/-- `isRateLimitError(error)`: HTTP status 429, or a message containing a
rate-limit indicator.  `none` models a falsy thrown value (`!error`). -/
def isRateLimitError (e : Option RetryableError) : Bool :=
  match e with
  | none => false
  | some err =>
    if statusOf err = some 429 then true
    else
      strContains (toLowerStr (err.message.getD "")) "rate limit" ||
        strContains (toLowerStr (err.message.getD "")) "too many requests" ||
        strContains (toLowerStr (err.message.getD "")) "429"

/-- `isRetryableError(error)`: rate-limit errors, network-class messages, and
HTTP status ≥ 500, 408 or 429. -/
def isRetryableError (e : Option RetryableError) : Bool :=
  match e with
  | none => false
  | some err =>
    if isRateLimitError e then true
    else if strContains (toLowerStr (err.message.getD "")) "network" ||
        strContains (toLowerStr (err.message.getD "")) "timeout" ||
        strContains (toLowerStr (err.message.getD "")) "econnrefused" ||
        strContains (toLowerStr (err.message.getD "")) "enotfound" then true
    else
      match statusOf err with
      | some status => decide (500 ≤ status) || decide (status = 408) || decide (status = 429)
      | none => false

/-- Retry policy.  Delays are JS numbers (milliseconds). -/
structure RetryConfig where
  maxRetries : ℕ
  minRetryDelayMs : ℚ
  maxRetryDelayMs : ℚ
  backoffMultiplier : ℚ
  deriving DecidableEq

/-- `calculateRetryDelay(attempt, config, isRateLimit)`.  `Math.random()` is
passed in explicitly as `random ∈ [0, 1)`: rate-limit errors get
`Math.floor(random * (max - min) + min)`, everything else exponential backoff
capped at `maxRetryDelayMs`. -/
def calculateRetryDelay (attempt : ℕ) (config : RetryConfig) (isRateLimit : Bool)
    (random : ℚ) : ℚ :=
  if isRateLimit then
    ((⌊random * (config.maxRetryDelayMs - config.minRetryDelayMs) +
        config.minRetryDelayMs⌋ : ℤ) : ℚ)
  else
    min (config.minRetryDelayMs * config.backoffMultiplier ^ (attempt - 1))
      config.maxRetryDelayMs

/-- Outcome of one execution of the wrapped operation: a returned value, or a
thrown value (`.err none` models throwing a falsy value). -/
inductive RunResult (α : Type) where
  | ok : α → RunResult α
  | err : Option RetryableError → RunResult α
  deriving DecidableEq

/-- The `for (let attempt = 1; attempt <= config.maxRetries + 1; attempt++)`
loop of `withRetry`, with the remaining number of loop iterations as fuel.
The operation's behaviour on its `k`-th execution is `fn k`.  The second
component counts how many times the operation was executed.  Delays and the
`onRetry` callback do not affect control flow and are not modelled.  The
trailing `throw lastError` after the loop (unreachable, since the final
iteration already re-throws) is the fuel-0 case. -/
def withRetryLoop {α : Type} (fn : ℕ → RunResult α) (maxRetries : ℕ) :
    ℕ → ℕ → Option RetryableError → RunResult α × ℕ
  | _, 0, lastError => (.err lastError, 0)
  | attempt, fuel + 1, _ =>
    match fn attempt with
    | .ok v => (.ok v, 1)
    | .err e =>
      if maxRetries < attempt ∨ isRetryableError e = false then (.err e, 1)
      else
        ((withRetryLoop fn maxRetries (attempt + 1) fuel e).1,
          (withRetryLoop fn maxRetries (attempt + 1) fuel e).2 + 1)

/-- `withRetry(fn, config)`: run the operation up to `maxRetries + 1` times,
re-throwing the last error once retries are exhausted or immediately on a
non-retryable error. -/
def withRetry {α : Type} (fn : ℕ → RunResult α) (config : RetryConfig) :
    RunResult α × ℕ :=
  withRetryLoop fn config.maxRetries 1 (config.maxRetries + 1) none

/-! ## Price Fallback Engine (`src/lib/api/price-service.ts`) -/

/-- The five price providers. -/
inductive PriceProvider where
  | coingecko
  | kraken
  | cryptocompare
  | coinbase
  | binance
  deriving DecidableEq

/-- The fixed priority order the fallback engine iterates. -/
def PROVIDER_ORDER : List PriceProvider :=
  [.coingecko, .kraken, .cryptocompare, .coinbase, .binance]

/-- What one adapter call does: return a price or `null`, or throw. -/
inductive AdapterOutcome where
  | ok : Option ℚ → AdapterOutcome
  | threw : AdapterOutcome
  deriving DecidableEq

/-- A resolved price with its originating provider.  The `Date.now()`
timestamp carried by the source's `PriceResult` is wall-clock state and is
not modelled. -/
structure PriceResult where
  price : ℚ
  provider : PriceProvider
  deriving DecidableEq

/-- The provider loop of `getPriceWithFallback`: a thrown adapter error is
caught and the loop continues, exactly like a `null` price; a positive price
returns immediately.  The second component lists the providers that were
actually called, in call order. -/
def getPriceWithFallbackAux (fetch : PriceProvider → AdapterOutcome) :
    List PriceProvider → Option PriceResult × List PriceProvider
  | [] => (none, [])
  | p :: rest =>
    match fetch p with
    | .ok (some pr) =>
      if 0 < pr then (some { price := pr, provider := p }, [p])
      else
        ((getPriceWithFallbackAux fetch rest).1, p :: (getPriceWithFallbackAux fetch rest).2)
    | .ok none =>
      ((getPriceWithFallbackAux fetch rest).1, p :: (getPriceWithFallbackAux fetch rest).2)
    | .threw =>
      ((getPriceWithFallbackAux fetch rest).1, p :: (getPriceWithFallbackAux fetch rest).2)

/-- `getPriceWithFallback`, with the behaviour of each provider's adapter
passed in as `fetch`. -/
def getPriceWithFallback (fetch : PriceProvider → AdapterOutcome) :
    Option PriceResult × List PriceProvider :=
  getPriceWithFallbackAux fetch PROVIDER_ORDER

/-- Spec-side helper: the positive price an adapter outcome yields, if any
(`null`, a non-positive price, and a thrown error all yield `none`). -/
def positivePriceOf (o : AdapterOutcome) : Option ℚ :=
  match o with
  | .ok (some q) => if 0 < q then some q else none
  | _ => none

/-! ## USD conversion (`src/lib/utils/token-helpers.ts`) -/

/-- `convertUSDToWei(usdAmount, chainId)`, with the price service's answer
passed in as `price` (`none` models a `null` price).  The second component
records whether a price lookup was performed.  A zero `usdAmount` returns
before any lookup; a missing or non-positive price throws, wrapped by the
outer catch.  The division on the success path is modelled at rational
precision. -/
def convertUSDToWei (usdAmount : ℚ) (chainId : ℕ) (price : Option ℚ) :
    Except String ℤ × Bool :=
  if usdAmount = 0 then (.ok 0, false)
  else
    match price with
    | none => (.error "Failed to convert USD to Wei: Unable to fetch current price", true)
    | some p =>
      if p ≤ 0 then (.error "Failed to convert USD to Wei: Unable to fetch current price", true)
      else (.ok (parseNativeAmount (usdAmount / p) chainId), true)

/-! ## Concrete inputs used by the witnesses -/

/-- A retry policy with 2 retries, delays 1000–30000 ms, multiplier 2. -/
def cfgW : RetryConfig :=
  { maxRetries := 2, minRetryDelayMs := 1000, maxRetryDelayMs := 30000, backoffMultiplier := 2 }

/-- A retry policy whose minimum delay is not an integer number of
milliseconds (999.5 ms). -/
def cfgFracMin : RetryConfig :=
  { maxRetries := 2, minRetryDelayMs := 1999 / 2, maxRetryDelayMs := 30000,
    backoffMultiplier := 2 }

/-- A retry policy whose delay bounds are inverted (max < min). -/
def cfgInverted : RetryConfig :=
  { maxRetries := 2, minRetryDelayMs := 1000, maxRetryDelayMs := 0,
    backoffMultiplier := 2 }

/-- A retryable server error (HTTP 500). -/
def errServer : RetryableError := { status := some 500 }

/-- A non-retryable client error (HTTP 400). -/
def errClient : RetryableError := { status := some 400 }

/-- An operation that throws the server error on every attempt. -/
def fnAllFail : ℕ → RunResult ℕ := fun _ => .err (some errServer)

/-- An operation that throws the client error on every attempt. -/
def fnFatal : ℕ → RunResult ℕ := fun _ => .err (some errClient)

/-- An operation that fails retryably once, then succeeds on attempt 2. -/
def fnSucceedsSecond : ℕ → RunResult ℕ :=
  fun k => if k = 2 then .ok 7 else .err (some errServer)

/-- Adapters that all throw. -/
def fetchAllFail : PriceProvider → AdapterOutcome := fun _ => .threw

/-- Adapters where the third provider in priority order is the first to
return a positive price. -/
def fetchThirdPositive : PriceProvider → AdapterOutcome := fun p =>
  match p with
  | .coingecko => .ok none
  | .kraken => .threw
  | .cryptocompare => .ok (some 100)
  | .coinbase => .ok (some 50)
  | .binance => .ok (some 50)

/-! ## Helper lemmas: binary64 rounding -/

theorem shift2_nonneg {q : ℚ} (h : 0 ≤ q) (e : ℤ) : 0 ≤ shift2 q e := by
  unfold shift2
  split
  · exact mul_nonneg h (by positivity)
  · exact div_nonneg h (by positivity)

theorem roundHalfEven_nonneg {x : ℚ} (h : 0 ≤ x) : 0 ≤ roundHalfEven x := by
  have hf : (0 : ℤ) ≤ ⌊x⌋ := Int.floor_nonneg.mpr h
  unfold roundHalfEven
  split_ifs <;> omega

theorem roundPosDouble_nonneg {q : ℚ} (h : 0 ≤ q) : 0 ≤ roundPosDouble q := by
  unfold roundPosDouble
  exact shift2_nonneg (by exact_mod_cast roundHalfEven_nonneg (shift2_nonneg h _)) _

theorem roundDouble_nonpos {q : ℚ} (h : q ≤ 0) : roundDouble q ≤ 0 := by
  unfold roundDouble
  split
  · exact le_refl 0
  · split
    · have := roundPosDouble_nonneg (q := -q) (by linarith)
      linarith
    · rename_i h0 hneg
      exact absurd (lt_of_le_of_ne h h0) hneg

theorem shift2_natCast (x : ℚ) (s : ℕ) : shift2 x (s : ℤ) = x * 2 ^ s := by
  rw [shift2, if_pos (Int.natCast_nonneg s), Int.toNat_natCast]

theorem shift2_neg_natCast (x : ℚ) (s : ℕ) : shift2 x (-(s : ℤ)) = x / 2 ^ s := by
  rcases Nat.eq_zero_or_pos s with rfl | hs
  · simp [shift2]
  · rw [shift2, if_neg (by omega), neg_neg, Int.toNat_natCast]

theorem shift2_one_eq_zpow (k : ℤ) : shift2 1 k = (2 : ℚ) ^ k := by
  rw [shift2]
  split
  · rename_i h
    rw [one_mul, ← zpow_natCast, Int.toNat_of_nonneg h]
  · rename_i h
    rw [one_div, ← zpow_natCast, Int.toNat_of_nonneg (by omega), ← zpow_neg, neg_neg]

theorem shift2_one_mono {k l : ℤ} (h : k ≤ l) : shift2 1 k ≤ shift2 1 l := by
  rw [shift2_one_eq_zpow, shift2_one_eq_zpow]
  exact zpow_le_zpow_right₀ one_le_two h

theorem qlog2_eval (q : ℚ) (k : ℤ)
    (hlow : (2 : ℚ) ^ k ≤ q) (hhigh : q < (2 : ℚ) ^ (k + 1))
    (ha : (q.num.natAbs.log2 : ℤ) - (q.den.log2 : ℤ) = k ∨
          (q.num.natAbs.log2 : ℤ) - (q.den.log2 : ℤ) = k + 1 ∨
          (q.num.natAbs.log2 : ℤ) - (q.den.log2 : ℤ) = k - 1) :
    qlog2 q = k := by
  have hhigh' : ¬ shift2 1 (k + 1) ≤ q := by
    rw [shift2_one_eq_zpow]; exact not_le.mpr hhigh
  have hlow' : shift2 1 k ≤ q := by rw [shift2_one_eq_zpow]; exact hlow
  rw [qlog2]
  rcases ha with ha | ha | ha <;> rw [ha]
  · rw [if_neg hhigh', if_pos hlow']
  · rw [if_neg fun hc => hhigh' (le_trans (shift2_one_mono (by omega)) hc),
      if_neg fun hc => hhigh' (le_trans (shift2_one_mono (by omega)) hc)]
    omega
  · rw [if_pos (by rw [show k - 1 + 1 = k by ring]; exact hlow')]
    omega

theorem roundDouble_eval_pos (q : ℚ) (s : ℕ) (m : ℤ)
    (hq0 : ¬ q = 0) (hqneg : ¬ q < 0)
    (hk : qlog2 q = 52 - (s : ℤ))
    (hm : roundHalfEven (q * 2 ^ s) = m) :
    roundDouble q = (m : ℚ) / 2 ^ s := by
  rw [roundDouble, if_neg hq0, if_neg hqneg, roundPosDouble, hk,
    show 52 - (s : ℤ) - 52 = -(s : ℤ) by ring, neg_neg, shift2_natCast, hm,
    shift2_neg_natCast]

theorem roundHalfEven_eval_down (x : ℚ) (f : ℤ) (hf : ⌊x⌋ = f) (h : x - (f : ℚ) < 1 / 2) :
    roundHalfEven x = f := by
  rw [roundHalfEven, hf, if_pos h]

theorem natLog2_eval (n k : ℕ) (h1 : 2 ^ k ≤ n) (h2 : n < 2 ^ (k + 1)) : Nat.log2 n = k := by
  rw [Nat.log2_eq_log_two]
  exact Nat.log_eq_of_pow_le_of_lt_pow h1 h2

/-! ## Helper lemmas: the IEEE-754 chain for the inputs `0.29` and `0.5` -/

theorem rd_29_100 : roundDouble (29 / 100 : ℚ) = 5224175567749775 / 2 ^ 54 := by
  apply roundDouble_eval_pos (29 / 100 : ℚ) 54 5224175567749775 (by norm_num) (by norm_num)
  · apply qlog2_eval _ (-2) (by norm_num) (by norm_num)
    left
    rw [show ((29 : ℚ) / 100).num = 29 from by norm_num,
      show ((29 : ℚ) / 100).den = 100 from by norm_num,
      show (29 : ℤ).natAbs = 29 from rfl,
      natLog2_eval 29 4 (by norm_num) (by norm_num),
      natLog2_eval 100 6 (by norm_num) (by norm_num)]
    norm_num
  · exact roundHalfEven_eval_down _ 5224175567749775 (by norm_num) (by norm_num)

theorem rd_V : roundDouble (5224175567749775 / 2 ^ 54 : ℚ) = 5224175567749775 / 2 ^ 54 := by
  have h := roundDouble_eval_pos (5224175567749775 / 2 ^ 54 : ℚ) 54 5224175567749775
    (by norm_num) (by norm_num) ?_ ?_
  · exact h
  · apply qlog2_eval _ (-2) (by norm_num) (by norm_num)
    left
    have hnum : ((5224175567749775 : ℚ) / 2 ^ 54).num = (5224175567749775 : ℤ) := by norm_num
    have hden : ((5224175567749775 : ℚ) / 2 ^ 54).den = (18014398509481984 : ℕ) := by norm_num
    rw [hnum, hden,
      show (5224175567749775 : ℤ).natAbs = 5224175567749775 from rfl,
      natLog2_eval 5224175567749775 52 (by norm_num) (by norm_num),
      natLog2_eval 18014398509481984 54 (by norm_num) (by norm_num)]
    norm_num
  · exact roundHalfEven_eval_down _ 5224175567749775 (by norm_num) (by norm_num)

theorem rd_100 : roundDouble (100 : ℚ) = 100 := by
  have h := roundDouble_eval_pos (100 : ℚ) 46 (100 * 2 ^ 46)
    (by norm_num) (by norm_num) ?_ ?_
  · rw [h]; norm_num
  · apply qlog2_eval _ 6 (by norm_num) (by norm_num)
    left
    rw [show ((100 : ℚ)).num = 100 from by norm_num,
      show ((100 : ℚ)).den = 1 from by norm_num,
      show (100 : ℤ).natAbs = 100 from rfl,
      natLog2_eval 100 6 (by norm_num) (by norm_num),
      natLog2_eval 1 0 (by norm_num) (by norm_num)]
    norm_num
  · exact roundHalfEven_eval_down _ (100 * 2 ^ 46) (by norm_num) (by norm_num)

theorem rd_prod : roundDouble (5224175567749775 / 2 ^ 54 * 100 : ℚ) =
    8162774324609023 / 2 ^ 48 := by
  apply roundDouble_eval_pos _ 48 8162774324609023 (by norm_num) (by norm_num)
  · have hq : qlog2 (5224175567749775 / 2 ^ 54 * 100 : ℚ) = 4 := by
      apply qlog2_eval _ 4 (by norm_num) (by norm_num)
      left
      have hnum : ((5224175567749775 : ℚ) / 2 ^ 54 * 100).num = (130604389193744375 : ℤ) := by
        norm_num
      have hden : ((5224175567749775 : ℚ) / 2 ^ 54 * 100).den = (4503599627370496 : ℕ) := by
        norm_num
      rw [hnum, hden,
        show (130604389193744375 : ℤ).natAbs = 130604389193744375 from rfl,
        natLog2_eval 130604389193744375 56 (by norm_num) (by norm_num),
        natLog2_eval 4503599627370496 52 (by norm_num) (by norm_num)]
      norm_num
    rw [hq]
    norm_num
  · exact roundHalfEven_eval_down _ 8162774324609023 (by norm_num) (by norm_num)

theorem tsu_29_100 : toSmallestUnitInt (some (29 / 100)) 2 = 28 := by
  simp only [toSmallestUnitInt]
  rw [rd_29_100, if_neg (by norm_num)]
  rw [show ((10 : ℚ) ^ 2) = 100 from by norm_num, rd_100,
    show ⌊(100 : ℚ)⌋ = 100 from by norm_num,
    show ⌊(5224175567749775 / 2 ^ 54 : ℚ)⌋ = 0 from by norm_num]
  rw [show ((0 : ℤ) : ℚ) = 0 from by norm_num, sub_zero, rd_V]
  rw [show (((100 : ℤ)) : ℚ) = 100 from by norm_num, rd_100, rd_prod]
  rw [show ⌊(8162774324609023 / 2 ^ 48 : ℚ)⌋ = 28 from by norm_num]
  norm_num

theorem rd_half : roundDouble (1 / 2 : ℚ) = 1 / 2 := by
  have h := roundDouble_eval_pos (1 / 2 : ℚ) 53 (2 ^ 52)
    (by norm_num) (by norm_num) ?_ ?_
  · rw [h]; norm_num
  · apply qlog2_eval _ (-1) (by norm_num) (by norm_num)
    left
    rw [show ((1 : ℚ) / 2).num = 1 from by norm_num,
      show ((1 : ℚ) / 2).den = 2 from by norm_num,
      show (1 : ℤ).natAbs = 1 from rfl,
      natLog2_eval 1 0 (by norm_num) (by norm_num),
      natLog2_eval 2 1 (by norm_num) (by norm_num)]
    norm_num
  · exact roundHalfEven_eval_down _ (2 ^ 52) (by norm_num) (by norm_num)

theorem rd_one : roundDouble (1 : ℚ) = 1 := by
  have h := roundDouble_eval_pos (1 : ℚ) 52 (2 ^ 52)
    (by norm_num) (by norm_num) ?_ ?_
  · rw [h]; norm_num
  · apply qlog2_eval _ 0 (by norm_num) (by norm_num)
    left
    rw [show ((1 : ℚ)).num = 1 from by norm_num,
      show ((1 : ℚ)).den = 1 from by norm_num,
      show (1 : ℤ).natAbs = 1 from rfl,
      natLog2_eval 1 0 (by norm_num) (by norm_num)]
    norm_num
  · exact roundHalfEven_eval_down _ (2 ^ 52) (by norm_num) (by norm_num)

theorem tsu_half : toSmallestUnitInt (some (1 / 2)) 0 = 0 := by
  simp only [toSmallestUnitInt]
  rw [rd_half, if_neg (by norm_num)]
  rw [show ((10 : ℚ) ^ 0) = 1 from by norm_num, rd_one,
    show ⌊(1 : ℚ)⌋ = 1 from by norm_num,
    show ⌊(1 / 2 : ℚ)⌋ = 0 from by norm_num]
  rw [show ((0 : ℤ) : ℚ) = 0 from by norm_num, sub_zero, rd_half]
  rw [show (((1 : ℤ)) : ℚ) = 1 from by norm_num, rd_one,
    show ((1 : ℚ) / 2 * 1) = 1 / 2 from by norm_num, rd_half,
    show ⌊(1 / 2 : ℚ)⌋ = 0 from by norm_num]
  norm_num

/-! ## Helper lemmas: retry loop -/

theorem withRetryLoop_ok {α : Type} (fn : ℕ → RunResult α) (m a f : ℕ)
    (last : Option RetryableError) (v : α) (h : fn a = .ok v) :
    withRetryLoop fn m a (f + 1) last = (.ok v, 1) := by
  simp only [withRetryLoop, h]

theorem withRetryLoop_fatal {α : Type} (fn : ℕ → RunResult α) (m a f : ℕ)
    (last : Option RetryableError) (e : Option RetryableError) (h : fn a = .err e)
    (hc : m < a ∨ isRetryableError e = false) :
    withRetryLoop fn m a (f + 1) last = (.err e, 1) := by
  simp only [withRetryLoop, h]
  rw [if_pos hc]

theorem withRetryLoop_retry {α : Type} (fn : ℕ → RunResult α) (m a f : ℕ)
    (last : Option RetryableError) (e : Option RetryableError) (h : fn a = .err e)
    (ha : a ≤ m) (hr : isRetryableError e = true) :
    withRetryLoop fn m a (f + 1) last =
      ((withRetryLoop fn m (a + 1) f e).1, (withRetryLoop fn m (a + 1) f e).2 + 1) := by
  simp only [withRetryLoop, h]
  rw [if_neg]
  intro hc
  rcases hc with h1 | h1
  · omega
  · rw [hr] at h1
    simp at h1

theorem withRetryLoop_all_fail {α : Type} (fn : ℕ → RunResult α) (m : ℕ) :
    ∀ (f a : ℕ) (last : Option RetryableError), a + f = m + 2 → 1 ≤ a → a ≤ m + 1 →
      (∀ k, a ≤ k → k ≤ m + 1 → ∃ e, fn k = .err e ∧ isRetryableError e = true) →
      withRetryLoop fn m a f last = (fn (m + 1), f) := by
  intro f
  induction f with
  | zero => intro a last h1 h2 h3 _; omega
  | succ f' IH =>
    intro a last h1 h2 h3 h
    obtain ⟨e, he, hr⟩ := h a le_rfl h3
    by_cases ham : a = m + 1
    · have hf0 : f' = 0 := by omega
      subst hf0
      subst ham
      rw [withRetryLoop_fatal fn m (m + 1) 0 last e he (Or.inl (by omega)), he]
    · have ham' : a ≤ m := by omega
      rw [withRetryLoop_retry fn m a f' last e he ham' hr,
        IH (a + 1) e (by omega) (by omega) (by omega) (fun k hk1 hk2 => h k (by omega) hk2)]

theorem withRetryLoop_succ_at {α : Type} (fn : ℕ → RunResult α) (m : ℕ) (v : α) :
    ∀ (f a : ℕ) (last : Option RetryableError), a + f = m + 2 → 1 ≤ a →
      ∀ k, a ≤ k → k ≤ m + 1 → fn k = .ok v →
      (∀ j, a ≤ j → j < k → ∃ e, fn j = .err e ∧ isRetryableError e = true) →
      withRetryLoop fn m a f last = (.ok v, k - a + 1) := by
  intro f
  induction f with
  | zero => intro a last h1 h2 k hk1 hk2 _ _; omega
  | succ f' IH =>
    intro a last h1 h2 k hk1 hk2 hok hprev
    by_cases hak : a = k
    · subst hak
      rw [withRetryLoop_ok fn m a f' last v hok]
      simp
    · obtain ⟨e, he, hr⟩ := hprev a le_rfl (by omega)
      rw [withRetryLoop_retry fn m a f' last e he (by omega) hr,
        IH (a + 1) e (by omega) (by omega) k (by omega) hk2 hok
          (fun j hj1 hj2 => hprev j (by omega) hj2)]
      have : k - (a + 1) + 1 + 1 = k - a + 1 := by omega
      rw [this]

/-! ## Helper lemmas: price fallback loop -/

theorem fallbackAux_skip (fetch : PriceProvider → AdapterOutcome) (p : PriceProvider)
    (rest : List PriceProvider) (h : positivePriceOf (fetch p) = none) :
    getPriceWithFallbackAux fetch (p :: rest) =
      ((getPriceWithFallbackAux fetch rest).1, p :: (getPriceWithFallbackAux fetch rest).2) := by
  cases hf : fetch p with
  | threw => simp only [getPriceWithFallbackAux, hf]
  | ok v =>
    cases v with
    | none => simp only [getPriceWithFallbackAux, hf]
    | some q =>
      rw [hf] at h
      simp only [positivePriceOf] at h
      have h0 : ¬ 0 < q := by
        intro h0
        rw [if_pos h0] at h
        exact Option.some_ne_none q h
      simp only [getPriceWithFallbackAux, hf]
      rw [if_neg h0]

theorem fallbackAux_hit (fetch : PriceProvider → AdapterOutcome) (p : PriceProvider)
    (rest : List PriceProvider) (q : ℚ) (h : positivePriceOf (fetch p) = some q) :
    getPriceWithFallbackAux fetch (p :: rest) =
      (some { price := q, provider := p }, [p]) := by
  cases hf : fetch p with
  | threw => rw [hf] at h; simp [positivePriceOf] at h
  | ok v =>
    cases v with
    | none => rw [hf] at h; simp [positivePriceOf] at h
    | some q' =>
      rw [hf] at h
      simp only [positivePriceOf] at h
      by_cases h0 : 0 < q'
      · rw [if_pos h0] at h
        injection h with h
        subst h
        simp only [getPriceWithFallbackAux, hf]
        rw [if_pos h0]
      · rw [if_neg h0] at h
        exact absurd h (by simp)

theorem fallbackAux_all_none (fetch : PriceProvider → AdapterOutcome) :
    ∀ l : List PriceProvider, (∀ p ∈ l, positivePriceOf (fetch p) = none) →
      getPriceWithFallbackAux fetch l = (none, l) := by
  intro l
  induction l with
  | nil => intro _; rfl
  | cons p rest IH =>
    intro h
    rw [fallbackAux_skip fetch p rest (h p (by simp)),
      IH (fun p' hp' => h p' (by simp [hp']))]

theorem fallbackAux_first_hit (fetch : PriceProvider → AdapterOutcome) :
    ∀ (pre : List PriceProvider) (p : PriceProvider) (suf : List PriceProvider) (q : ℚ),
      (∀ p' ∈ pre, positivePriceOf (fetch p') = none) →
      positivePriceOf (fetch p) = some q →
      getPriceWithFallbackAux fetch (pre ++ p :: suf) =
        (some { price := q, provider := p }, pre ++ [p]) := by
  intro pre
  induction pre with
  | nil => intro p suf q _ hp; simpa using fallbackAux_hit fetch p suf q hp
  | cons r rest IH =>
    intro p suf q hpre hp
    rw [List.cons_append, fallbackAux_skip fetch r (rest ++ p :: suf) (hpre r (by simp)),
      IH p suf q (fun p' hp' => hpre p' (by simp [hp'])) hp]
    simp

/-! ## Claim theorems -/

/-- C1: the claim says that with a zero authoritative fee, `validateClientFee`
accepts a zero client fee and rejects a non-zero one.  In the code the
unguarded division yields `0 / 0 = NaN` (resp. `Infinity`), and both
`NaN <= 0.0001` and `Infinity <= 0.0001` are false, so a correct zero client
fee is rejected as well: evaluating the embedded code at the failing input
(fee tier 0 basis points, amount 1000) returns `false` for `clientFee = 0`
just as for `clientFee = 5`. -/
theorem validateClientFee_zero_authoritative_fee_eval :
    validateClientFee 0 1000 0 = false ∧ validateClientFee 0 1000 5 = false := by
  have hfee : (calculateUserFee 0 1000).feeAmount = 0 := by
    norm_num [calculateUserFee, getUserFeePercentage]
  constructor
  · simp only [validateClientFee, hfee, sub_zero, abs_zero]
    norm_num [jsDiv, jsLe]
  · simp only [validateClientFee, hfee]
    rw [show |(0 : ℚ) - 5| = 5 from by norm_num]
    norm_num [jsDiv, jsLe]

/-- C3: the scaling round-trip is not the identity.  At input `"0.29"` with
2 decimals, the IEEE-754 product `0.29 * 100` rounds to `28.999999999999996…`,
`Math.floor` gives `28`, and the round trip returns `"0.28"`, not `"0.29"`. -/
theorem toSmallestUnit_roundtrip_failure_eval :
    fromSmallestUnit (toSmallestUnitInt (some (29 / 100)) 2) 2 = "0.28" ∧
      fromSmallestUnit (toSmallestUnitInt (some (29 / 100)) 2) 2 ≠ "0.29" := by
  rw [tsu_29_100]
  constructor
  · decide
  · decide

/-- C10 (counterexample to the original claim): the positive input `0.5` with
0 decimals is mapped to `"0"` by `toSmallestUnit`. -/
theorem toSmallestUnit_positive_to_zero_counterexample :
    toSmallestUnit (some (1 / 2)) 0 = "0" ∧ (0 : ℚ) < 1 / 2 := by
  constructor
  · rw [toSmallestUnit, tsu_half]
    decide
  · norm_num

/-- C10 (amended): for every decimals value, `toSmallestUnit` returns `"0"`
(and cannot throw, being total) whenever its amount argument parses to `NaN`
(`none`) or is non-positive; a positive amount below one smallest unit can
also be mapped to `"0"` (see the counterexample). -/
theorem toSmallestUnit_zero_guard (decimals : ℕ) (amount : Option ℚ)
    (h : amount = none ∨ ∃ q, amount = some q ∧ q ≤ 0) :
    toSmallestUnit amount decimals = "0" := by
  rcases h with h | ⟨q, rfl, hq⟩
  · subst h; rfl
  · have hv : roundDouble q ≤ 0 := roundDouble_nonpos hq
    simp only [toSmallestUnit, toSmallestUnitInt, if_pos hv]
    rfl

/-- Witness for C10: a concrete negative amount maps to `"0"`. -/
theorem toSmallestUnit_zero_guard_witness :
    toSmallestUnit (some (-2)) 3 = "0" :=
  toSmallestUnit_zero_guard 3 (some (-2)) (Or.inr ⟨-2, rfl, by norm_num⟩)

/-- C7: `calculateUserFee` returns `feePercentage` = basis points / 100,
`feeAmount = amount * feePercentage / 100 = amount * basisPoints / 10000`,
and `netAmount = amount - feeAmount`, so `feeAmount + netAmount = amount`. -/
theorem calculateUserFee_formula (feeBasisPoints : ℕ) (amount : ℚ) :
    (calculateUserFee feeBasisPoints amount).feePercentage = (feeBasisPoints : ℚ) / 100 ∧
    (calculateUserFee feeBasisPoints amount).feeAmount =
      amount * ((feeBasisPoints : ℚ) / 100) / 100 ∧
    (calculateUserFee feeBasisPoints amount).feeAmount =
      amount * (feeBasisPoints : ℚ) / 10000 ∧
    (calculateUserFee feeBasisPoints amount).netAmount =
      amount - (calculateUserFee feeBasisPoints amount).feeAmount ∧
    (calculateUserFee feeBasisPoints amount).feeAmount +
      (calculateUserFee feeBasisPoints amount).netAmount = amount := by
  refine ⟨rfl, ?_, ?_, rfl, ?_⟩ <;>
    simp only [calculateUserFee, getUserFeePercentage] <;> ring

/-- C5: with a strictly positive authoritative fee, `validateClientFee`
accepts exactly the client fees within a relative tolerance of 0.01%:
`|authoritativeFee - clientFee| / authoritativeFee <= 0.0001`. -/
theorem validateClientFee_relative_tolerance (feeBasisPoints : ℕ) (amount clientFee : ℚ)
    (h : 0 < (calculateUserFee feeBasisPoints amount).feeAmount) :
    validateClientFee feeBasisPoints amount clientFee = true ↔
      |(calculateUserFee feeBasisPoints amount).feeAmount - clientFee| /
          (calculateUserFee feeBasisPoints amount).feeAmount ≤ 1 / 10000 := by
  have hne : ¬ (calculateUserFee feeBasisPoints amount).feeAmount = 0 := ne_of_gt h
  simp only [validateClientFee, jsDiv, if_neg hne, jsLe, decide_eq_true_eq]

/-- Witness for C5: fee tier 250 bps, amount 1000 — authoritative fee 25; a
client fee of exactly 25 validates. -/
theorem validateClientFee_relative_tolerance_witness :
    validateClientFee 250 1000 25 = true :=
  (validateClientFee_relative_tolerance 250 1000 25
      (by norm_num [calculateUserFee, getUserFeePercentage])).mpr
    (by norm_num [calculateUserFee, getUserFeePercentage])

/-- C2: outside the Hedera family (chain ids 295 and 296), `getEscrowAmounts`
returns an equal pair; on the Hedera family, for a positive amount with at
most 8 fractional digits (`amount = n / 10^8`), the contract amount is the
8-decimal scaling `n` and the transaction value is exactly `10^10` times it
(the 18-decimal scaling). -/
theorem getEscrowAmounts_dual_decimal_invariant (chainId : ℕ) (amount : ℚ)
    (hpos : 0 < amount) :
    (¬(chainId = 295 ∨ chainId = 296) →
      (getEscrowAmounts amount chainId).contractAmount =
        (getEscrowAmounts amount chainId).transactionValue) ∧
    ((chainId = 295 ∨ chainId = 296) → ∀ n : ℕ, amount = (n : ℚ) / 10 ^ 8 →
      (getEscrowAmounts amount chainId).contractAmount = (n : ℤ) ∧
      (getEscrowAmounts amount chainId).transactionValue =
        (getEscrowAmounts amount chainId).contractAmount * 10 ^ 10) := by
  constructor
  · intro h
    have hh : isHederaChain chainId = false := by
      simp only [isHederaChain, Bool.or_eq_false_iff, beq_eq_false_iff_ne, ne_eq]
      omega
    simp [getEscrowAmounts, hh]
  · intro h n hn
    subst hn
    have h8 : ((n : ℚ) / 10 ^ 8) * 10 ^ 8 = ((n : ℤ) : ℚ) := by
      push_cast
      field_simp
    have h18 : ((n : ℚ) / 10 ^ 8) * 10 ^ 18 = (((n : ℤ) * 10 ^ 10 : ℤ) : ℚ) := by
      push_cast
      field_simp
      ring
    have hc : parseUnits ((n : ℚ) / 10 ^ 8) 8 = (n : ℤ) := by
      rw [parseUnits, h8, round_intCast]
    have ht : parseUnits ((n : ℚ) / 10 ^ 8) 18 = (n : ℤ) * 10 ^ 10 := by
      rw [parseUnits, h18, round_intCast]
    have hh : isHederaChain chainId = true := by rcases h with rfl | rfl <;> rfl
    have hg : getEscrowAmounts ((n : ℚ) / 10 ^ 8) chainId =
        { contractAmount := parseUnits ((n : ℚ) / 10 ^ 8) 8,
          transactionValue := parseUnits ((n : ℚ) / 10 ^ 8) 18 } := by
      rw [getEscrowAmounts, if_pos hh]
    rw [hg]
    refine ⟨hc, ?_⟩
    show parseUnits ((n : ℚ) / 10 ^ 8) 18 = parseUnits ((n : ℚ) / 10 ^ 8) 8 * 10 ^ 10
    rw [hc, ht]

/-- Witness for C2: a standard chain (Morph testnet, 2810) yields an equal
pair at amount 5; Hedera mainnet (295) at amount `3 / 10^8` yields contract
amount 3 and transaction value `3 * 10^10`. -/
theorem getEscrowAmounts_dual_decimal_invariant_witness :
    (getEscrowAmounts 5 2810).contractAmount = (getEscrowAmounts 5 2810).transactionValue ∧
    (getEscrowAmounts ((3 : ℚ) / 10 ^ 8) 295).contractAmount = 3 ∧
    (getEscrowAmounts ((3 : ℚ) / 10 ^ 8) 295).transactionValue =
      (getEscrowAmounts ((3 : ℚ) / 10 ^ 8) 295).contractAmount * 10 ^ 10 := by
  refine ⟨(getEscrowAmounts_dual_decimal_invariant 2810 5 (by norm_num)).1 (by omega), ?_, ?_⟩
  · exact ((getEscrowAmounts_dual_decimal_invariant 295 ((3 : ℚ) / 10 ^ 8)
      (by norm_num)).2 (Or.inl rfl) 3 (by norm_num)).1
  · exact ((getEscrowAmounts_dual_decimal_invariant 295 ((3 : ℚ) / 10 ^ 8)
      (by norm_num)).2 (Or.inl rfl) 3 (by norm_num)).2

/-- C9: `convertUSDToWei` with a zero USD amount returns 0 without performing
any price lookup; with a non-zero amount and no positive price resolving it
raises an error rather than returning a value. -/
theorem convertUSDToWei_zero_and_no_price (chainId : ℕ) (price : Option ℚ) :
    convertUSDToWei 0 chainId price = (.ok 0, false) ∧
    (∀ usd : ℚ, usd ≠ 0 → (price = none ∨ ∃ p, price = some p ∧ p ≤ 0) →
      ∃ msg, convertUSDToWei usd chainId price = (.error msg, true)) := by
  refine ⟨rfl, ?_⟩
  intro usd husd hp
  rcases hp with rfl | ⟨p, rfl, hple⟩
  · exact ⟨"Failed to convert USD to Wei: Unable to fetch current price",
      by simp [convertUSDToWei, husd]⟩
  · exact ⟨"Failed to convert USD to Wei: Unable to fetch current price",
      by simp [convertUSDToWei, husd, if_pos hple]⟩

/-- Witness for C9: chain 2810 with no resolved price — zero amount returns
0 with no lookup; amount 5 errors. -/
theorem convertUSDToWei_zero_and_no_price_witness :
    convertUSDToWei 0 2810 none = (.ok 0, false) ∧
    (∃ msg, convertUSDToWei 5 2810 none = (.error msg, true)) :=
  ⟨(convertUSDToWei_zero_and_no_price 2810 none).1,
    (convertUSDToWei_zero_and_no_price 2810 none).2 5 (by norm_num) (Or.inl rfl)⟩

/-- C4: `withRetry` executes the operation exactly `maxRetries + 1` times and
re-raises the last error unchanged when every attempt throws a retryable
error; it propagates a non-retryable error immediately after a single
attempt; and it returns the result of a success on attempt `k` with exactly
`k` executions and no further attempts. -/
theorem withRetry_attempt_semantics {α : Type} (cfg : RetryConfig) (fn : ℕ → RunResult α) :
    ((∀ k, 1 ≤ k → k ≤ cfg.maxRetries + 1 →
        ∃ e, fn k = .err e ∧ isRetryableError e = true) →
      withRetry fn cfg = (fn (cfg.maxRetries + 1), cfg.maxRetries + 1)) ∧
    (∀ e, fn 1 = .err e → isRetryableError e = false →
      withRetry fn cfg = (.err e, 1)) ∧
    (∀ k v, 1 ≤ k → k ≤ cfg.maxRetries + 1 →
      (∀ j, 1 ≤ j → j < k → ∃ e, fn j = .err e ∧ isRetryableError e = true) →
      fn k = .ok v → withRetry fn cfg = (.ok v, k)) := by
  refine ⟨?_, ?_, ?_⟩
  · intro h
    exact withRetryLoop_all_fail fn cfg.maxRetries (cfg.maxRetries + 1) 1 none
      (by omega) le_rfl (by omega) h
  · intro e h1 hnr
    exact withRetryLoop_fatal fn cfg.maxRetries 1 cfg.maxRetries none e h1 (Or.inr hnr)
  · intro k v hk1 hk2 hprev hok
    have h := withRetryLoop_succ_at fn cfg.maxRetries v (cfg.maxRetries + 1) 1 none
      (by omega) le_rfl k hk1 hk2 hok (fun j hj1 hj2 => hprev j hj1 hj2)
    rw [withRetry, h]
    congr 1
    omega

/-- Witness for C4: with `maxRetries = 2`, an always-failing retryable
operation runs 3 times and re-throws its error; a non-retryable error stops
after 1 run; a success on attempt 2 returns with 2 runs. -/
theorem withRetry_attempt_semantics_witness :
    withRetry fnAllFail cfgW = (.err (some errServer), 3) ∧
    withRetry fnFatal cfgW = (.err (some errClient), 1) ∧
    withRetry fnSucceedsSecond cfgW = (.ok 7, 2) := by
  refine ⟨?_, ?_, ?_⟩
  · exact (withRetry_attempt_semantics cfgW fnAllFail).1
      (fun k _ _ => ⟨some errServer, rfl, by decide⟩)
  · exact (withRetry_attempt_semantics cfgW fnFatal).2.1 (some errClient) rfl (by decide)
  · refine (withRetry_attempt_semantics cfgW fnSucceedsSecond).2.2 2 7 (by omega) (by decide)
      (fun j hj1 hj2 => ?_) rfl
    have hj : j = 1 := by omega
    subst hj
    exact ⟨some errServer, rfl, by decide⟩

/-- C8 (counterexample to the original claim): the claim's rate-limit bound
fails for policies it quantifies over.  With `minDelay = 999.5` and
`random = 0` the code returns `Math.floor(999.5) = 999 < minDelay`; with
inverted bounds `minDelay = 1000 > maxDelay = 0` and `random = 1/2` it
returns `Math.floor(500) = 500 < minDelay`.  In both cases the jittered
delay does not lie between `minDelay` and `maxDelay`. -/
theorem calculateRetryDelay_jitter_counterexample :
    calculateRetryDelay 1 cfgFracMin true 0 < cfgFracMin.minRetryDelayMs ∧
    calculateRetryDelay 1 cfgInverted true (1 / 2) < cfgInverted.minRetryDelayMs := by
  constructor
  · show ((⌊(0 : ℚ) * ((30000 : ℚ) - 1999 / 2) + 1999 / 2⌋ : ℤ) : ℚ) < 1999 / 2
    norm_num
  · show ((⌊(1 / 2 : ℚ) * ((0 : ℚ) - 1000) + 1000⌋ : ℤ) : ℚ) < 1000
    norm_num

/-- C8 (amended): for a non-rate-limit error, `calculateRetryDelay` returns
exactly `min(minDelay * backoffMultiplier ^ (attempt - 1), maxDelay)`; for a
rate-limit error, with a well-formed policy (integer millisecond delays,
`minDelay <= maxDelay`), the jittered result lies between `minDelay` and
`maxDelay` for every value of the random source in `[0, 1)`. -/
theorem calculateRetryDelay_spec (attempt : ℕ) (cfg : RetryConfig) (random : ℚ)
    (_hatt : 1 ≤ attempt) :
    (calculateRetryDelay attempt cfg false random =
      min (cfg.minRetryDelayMs * cfg.backoffMultiplier ^ (attempt - 1))
        cfg.maxRetryDelayMs) ∧
    (∀ minI maxI : ℤ, cfg.minRetryDelayMs = (minI : ℚ) → cfg.maxRetryDelayMs = (maxI : ℚ) →
      minI ≤ maxI → 0 ≤ random → random < 1 →
      cfg.minRetryDelayMs ≤ calculateRetryDelay attempt cfg true random ∧
      calculateRetryDelay attempt cfg true random ≤ cfg.maxRetryDelayMs) := by
  constructor
  · rfl
  · intro minI maxI hmin hmax hle hr0 hr1
    have hx : (minI : ℚ) ≤ random * ((maxI : ℚ) - (minI : ℚ)) + (minI : ℚ) := by
      have : (0 : ℚ) ≤ random * ((maxI : ℚ) - (minI : ℚ)) :=
        mul_nonneg hr0 (by exact_mod_cast sub_nonneg.mpr hle)
      linarith
    have hx' : random * ((maxI : ℚ) - (minI : ℚ)) + (minI : ℚ) ≤ (maxI : ℚ) := by
      have hd : (0 : ℚ) ≤ (maxI : ℚ) - (minI : ℚ) := by exact_mod_cast sub_nonneg.mpr hle
      have : random * ((maxI : ℚ) - (minI : ℚ)) ≤ 1 * ((maxI : ℚ) - (minI : ℚ)) :=
        mul_le_mul_of_nonneg_right (le_of_lt hr1) hd
      linarith
    constructor
    · show cfg.minRetryDelayMs ≤
        ((⌊random * (cfg.maxRetryDelayMs - cfg.minRetryDelayMs) + cfg.minRetryDelayMs⌋ : ℤ) : ℚ)
      rw [hmin, hmax]
      exact_mod_cast Int.le_floor.mpr hx
    · show ((⌊random * (cfg.maxRetryDelayMs - cfg.minRetryDelayMs) + cfg.minRetryDelayMs⌋ : ℤ) : ℚ) ≤
        cfg.maxRetryDelayMs
      rw [hmin, hmax]
      have : ⌊random * ((maxI : ℚ) - (minI : ℚ)) + (minI : ℚ)⌋ ≤ maxI := by
        have := Int.floor_le_floor hx'
        rwa [Int.floor_intCast] at this
      exact_mod_cast this

/-- Witness for C8: policy 1000–30000 ms, multiplier 2, attempt 3, random
1/3 — exponential delay is the formula's value; jittered delay is within
bounds. -/
theorem calculateRetryDelay_spec_witness :
    calculateRetryDelay 3 cfgW false (1 / 3) =
      min (cfgW.minRetryDelayMs * cfgW.backoffMultiplier ^ (3 - 1)) cfgW.maxRetryDelayMs ∧
    cfgW.minRetryDelayMs ≤ calculateRetryDelay 3 cfgW true (1 / 3) ∧
    calculateRetryDelay 3 cfgW true (1 / 3) ≤ cfgW.maxRetryDelayMs := by
  refine ⟨(calculateRetryDelay_spec 3 cfgW (1 / 3) (by omega)).1, ?_, ?_⟩
  · exact ((calculateRetryDelay_spec 3 cfgW (1 / 3) (by omega)).2 1000 30000
      (by norm_num [cfgW]) (by norm_num [cfgW]) (by omega) (by norm_num) (by norm_num)).1
  · exact ((calculateRetryDelay_spec 3 cfgW (1 / 3) (by omega)).2 1000 30000
      (by norm_num [cfgW]) (by norm_num [cfgW]) (by omega) (by norm_num) (by norm_num)).2

/-- C6: `getPriceWithFallback` tries the adapters in the fixed order
`PROVIDER_ORDER`; if no adapter yields a positive price (null, non-positive,
or thrown), it returns `none` — without raising, being total — after calling
all five; and it returns the price and identity of the first provider in
that order yielding a positive price, calling exactly the providers up to
and including it. -/
theorem getPriceWithFallback_first_positive_provider (fetch : PriceProvider → AdapterOutcome) :
    ((∀ p ∈ PROVIDER_ORDER, positivePriceOf (fetch p) = none) →
      getPriceWithFallback fetch = (none, PROVIDER_ORDER)) ∧
    (∀ (pre : List PriceProvider) (p : PriceProvider) (suf : List PriceProvider) (q : ℚ),
      PROVIDER_ORDER = pre ++ p :: suf →
      (∀ p' ∈ pre, positivePriceOf (fetch p') = none) →
      positivePriceOf (fetch p) = some q →
      getPriceWithFallback fetch = (some { price := q, provider := p }, pre ++ [p])) := by
  constructor
  · intro h
    rw [getPriceWithFallback]
    exact fallbackAux_all_none fetch PROVIDER_ORDER h
  · intro pre p suf q horder hpre hp
    rw [getPriceWithFallback, horder]
    exact fallbackAux_first_hit fetch pre p suf q hpre hp

/-- Witness for C6: all-throwing adapters give `none` with all five called;
with the third provider (CryptoCompare) the first to return a positive
price, its price and identity are returned and only three providers are
called. -/
theorem getPriceWithFallback_first_positive_provider_witness :
    getPriceWithFallback fetchAllFail = (none, PROVIDER_ORDER) ∧
    getPriceWithFallback fetchThirdPositive =
      (some { price := 100, provider := .cryptocompare },
        [.coingecko, .kraken, .cryptocompare]) := by
  constructor
  · exact (getPriceWithFallback_first_positive_provider fetchAllFail).1 (fun p _ => rfl)
  · have h := (getPriceWithFallback_first_positive_provider fetchThirdPositive).2
      [.coingecko, .kraken] .cryptocompare [.coinbase, .binance] 100 rfl
      (fun p' hp' => by fin_cases hp' <;> rfl)
      (by norm_num [fetchThirdPositive, positivePriceOf])
    simpa using h
